import Mathlib

/-!
Shallow embedding of the chain tracker in `crates/pool/src/chain.rs` of
linbas-org/rundler, together with proofs about the properties claimed of it.

Modelling conventions:
* `u64`, `B256`, `Address`, `U256` values are embedded as `Nat`.  The only
  machine-width arithmetic in the modelled code where wrap-around is reachable
  is the `usize` subtraction `self.blocks.len() - reorg_depth` in
  `update_with_blocks`; it is embedded as `usizeSub`, the exact wrapping
  (release-mode) semantics.  All other subtractions are embedded as truncated
  `Nat` subtraction, which agrees with the `u64` semantics at every reachable
  argument (proved where a claim depends on it).
* Fallible Rust code (`anyhow::Result`) is embedded as `Except String`.
* `&mut self` methods are embedded as functions from the explicit state
  `ChainState` returning the updated state; a method that can fail returns the
  pair of an `Except` outcome and the post state, mirroring that Rust mutates
  `self` even on some error paths.
* The provider (an async trait object in the source) is a record of pure
  functions; `getBlock` models the eventual outcome of a (possibly retried)
  `get_block` call (`none` = unavailable / errored), `getLogs` models
  `get_logs` (`none` = provider error).
* The `while` loops that walk parent hashes backwards are embedded with an
  explicit fuel argument; each iteration decreases the front block number by
  exactly one, so fuel `number + 1` makes the fuel-exhaustion branch
  unreachable from the modelled entry points.
-/

/-- Entry point ABI version tag (`rundler_types::EntryPointVersion`). -/
inductive EntryPointVersion where
  | v0_6
  | v0_7
  | unspecified
deriving DecidableEq, Repr

/-- `MinedOp` from chain.rs. -/
structure MinedOp where
  hash : Nat
  entry_point : Nat
  sender : Nat
  nonce : Nat
  actual_gas_cost : Nat
  paymaster : Option Nat
deriving DecidableEq, Repr

/-- `BalanceUpdate` from chain.rs. -/
structure BalanceUpdate where
  address : Nat
  entrypoint : Nat
  amount : Nat
  is_addition : Bool
deriving DecidableEq, Repr

/-- `BlockSummary` from chain.rs. -/
structure BlockSummary where
  number : Nat
  hash : Nat
  timestamp : Nat
  parent_hash : Nat
  ops : List MinedOp
  entity_balance_updates : List BalanceUpdate
deriving DecidableEq, Repr

/-- The header data of a provider-returned `Block` used by the tracker. -/
structure Block where
  number : Nat
  hash : Nat
  timestamp : Nat
  parent_hash : Nat
deriving DecidableEq, Repr

/-- Decoded payload of a `UserOperationEvent` log (either ABI version). -/
structure UserOperationEventData where
  userOpHash : Nat
  sender : Nat
  paymaster : Nat
  nonce : Nat
  success : Bool
  actualGasCost : Nat
  actualGasUsed : Nat
deriving DecidableEq, Repr

/-- Decoded payload of a `Deposited` log. -/
structure DepositedEventData where
  account : Nat
  totalDeposit : Nat
deriving DecidableEq, Repr

/-- Decoded payload of a `Withdrawn` log. -/
structure WithdrawnEventData where
  account : Nat
  amount : Nat
  withdrawAddress : Nat
deriving DecidableEq, Repr

/-- A raw provider log.  `log_decode::<T>()` in the source is a typed decode
that may fail; each possible decode target is embedded as an `Option` field
(`none` = decode failure for that target type). -/
structure Log where
  address : Nat
  topic0 : Option Nat
  decodeUserOpV06 : Option UserOperationEventData
  decodeDepositedV06 : Option DepositedEventData
  decodeWithdrawnV06 : Option WithdrawnEventData
  decodeUserOpV07 : Option UserOperationEventData
  decodeDepositedV07 : Option DepositedEventData
  decodeWithdrawnV07 : Option WithdrawnEventData
deriving DecidableEq, Repr

/-- The six distinct event signature hashes (`SIGNATURE_HASH` constants).
Their concrete values are irrelevant; only distinctness matters. -/
def SIG_USER_OPERATION_EVENT_V0_6 : Nat := 1
def SIG_DEPOSITED_V0_6 : Nat := 2
def SIG_WITHDRAWN_V0_6 : Nat := 3
def SIG_USER_OPERATION_EVENT_V0_7 : Nat := 4
def SIG_DEPOSITED_V0_7 : Nat := 5
def SIG_WITHDRAWN_V0_7 : Nat := 6

/-- `SYNC_ERROR_COUNT_MAX` from chain.rs. -/
def SYNC_ERROR_COUNT_MAX : Nat := 50

/-- The relevant parts of `Settings` from chain.rs (poll interval and retry
counts only affect timing/retries, which collapse in this embedding). -/
structure Settings where
  history_size : Nat
  entry_point_addresses : List (Nat × EntryPointVersion)

/-- The provider as a pure oracle: `getBlock` is the eventual outcome of
fetching a block by hash, `getLogs` the outcome of `get_logs` filtered at one
block hash. -/
structure Provider where
  getBlock : Nat → Option Block
  getLogs : Nat → Option (List Log)

/-- The mutable state of `Chain`: the history deque (front = oldest block) and
the stale-head error counter. -/
structure ChainState where
  blocks : List BlockSummary
  sync_error_count : Nat
deriving DecidableEq, Repr

/-- `ChainUpdate` from chain.rs. -/
structure ChainUpdate where
  latest_block_number : Nat
  latest_block_hash : Nat
  latest_block_timestamp : Nat
  earliest_remembered_block_number : Nat
  reorg_depth : Nat
  mined_ops : List MinedOp
  unmined_ops : List MinedOp
  entity_balance_updates : List BalanceUpdate
  unmined_entity_balance_updates : List BalanceUpdate
  reorg_larger_than_history : Bool
deriving DecidableEq, Repr

/-- `DedupedOps` from chain.rs. -/
structure DedupedOps where
  mined_ops : List MinedOp
  unmined_ops : List MinedOp
deriving DecidableEq, Repr

/-- Placeholder summary used to totalise the panicking indexings
(`added_blocks[0]`, `.back().expect(..)`); every modelled call site is proved
(or assumed via the claims' hypotheses) to index a nonempty list. -/
def emptyBlockSummary : BlockSummary :=
  { number := 0, hash := 0, timestamp := 0, parent_hash := 0, ops := [],
    entity_balance_updates := [] }

/-- `self.settings.entry_point_addresses.get(&log.address())`. -/
def lookupVersion (s : Settings) (addr : Nat) : Option EntryPointVersion :=
  (s.entry_point_addresses.find? (fun kv => kv.1 == addr)).map (·.2)

/-- `Chain::load_v0_6`: dispatch one log on its topic0 and append the decoded
record, if any, to the accumulators. -/
def load_v0_6 (log : Log) (mined_ops : List MinedOp)
    (balance_updates : List BalanceUpdate) : List MinedOp × List BalanceUpdate :=
  match log.topic0 with
  | some t =>
    if t = SIG_USER_OPERATION_EVENT_V0_6 then
      match log.decodeUserOpV06 with
      | none => (mined_ops, balance_updates)
      | some event =>
        let paymaster := if event.paymaster = 0 then none else some event.paymaster
        let mined : MinedOp :=
          { hash := event.userOpHash, entry_point := log.address,
            sender := event.sender, nonce := event.nonce,
            actual_gas_cost := event.actualGasCost, paymaster := paymaster }
        (mined_ops ++ [mined], balance_updates)
    else if t = SIG_DEPOSITED_V0_6 then
      match log.decodeDepositedV06 with
      | none => (mined_ops, balance_updates)
      | some event =>
        let info : BalanceUpdate :=
          { entrypoint := log.address, address := event.account,
            amount := event.totalDeposit, is_addition := true }
        (mined_ops, balance_updates ++ [info])
    else if t = SIG_WITHDRAWN_V0_6 then
      match log.decodeWithdrawnV06 with
      | none => (mined_ops, balance_updates)
      | some event =>
        let info : BalanceUpdate :=
          { entrypoint := log.address, address := event.account,
            amount := event.amount, is_addition := false }
        (mined_ops, balance_updates ++ [info])
    else (mined_ops, balance_updates)
  | none => (mined_ops, balance_updates)

/-- `Chain::load_v0_7`. -/
def load_v0_7 (log : Log) (mined_ops : List MinedOp)
    (balance_updates : List BalanceUpdate) : List MinedOp × List BalanceUpdate :=
  match log.topic0 with
  | some t =>
    if t = SIG_USER_OPERATION_EVENT_V0_7 then
      match log.decodeUserOpV07 with
      | none => (mined_ops, balance_updates)
      | some event =>
        let paymaster := if event.paymaster = 0 then none else some event.paymaster
        let mined : MinedOp :=
          { hash := event.userOpHash, entry_point := log.address,
            sender := event.sender, nonce := event.nonce,
            actual_gas_cost := event.actualGasCost, paymaster := paymaster }
        (mined_ops ++ [mined], balance_updates)
    else if t = SIG_DEPOSITED_V0_7 then
      match log.decodeDepositedV07 with
      | none => (mined_ops, balance_updates)
      | some event =>
        let info : BalanceUpdate :=
          { entrypoint := log.address, address := event.account,
            amount := event.totalDeposit, is_addition := true }
        (mined_ops, balance_updates ++ [info])
    else if t = SIG_WITHDRAWN_V0_7 then
      match log.decodeWithdrawnV07 with
      | none => (mined_ops, balance_updates)
      | some event =>
        let info : BalanceUpdate :=
          { entrypoint := log.address, address := event.account,
            amount := event.amount, is_addition := false }
        (mined_ops, balance_updates ++ [info])
    else (mined_ops, balance_updates)
  | none => (mined_ops, balance_updates)

/-- The per-log accumulation loop inside `load_ops_in_block_with_hash`. -/
def decodeLogs (s : Settings) (logs : List Log) :
    List MinedOp × List BalanceUpdate :=
  logs.foldl
    (fun acc log =>
      match lookupVersion s log.address with
      | some EntryPointVersion.v0_6 => load_v0_6 log acc.1 acc.2
      | some EntryPointVersion.v0_7 => load_v0_7 log acc.1 acc.2
      | some EntryPointVersion.unspecified => acc
      | none => acc)
    ([], [])

/-- `Chain::load_ops_in_block_with_hash` (minus the semaphore, which only
bounds concurrency). -/
def load_ops_in_block_with_hash (p : Provider) (s : Settings)
    (block_hash : Nat) : Except String (List MinedOp × List BalanceUpdate) :=
  match p.getLogs block_hash with
  | none => .error "chain state should load user operation events"
  | some logs => .ok (decodeLogs s logs)

/-- `BlockSummary::try_from_block_without_ops` with `expected = None`
(infallible in that case). -/
def summaryOfBlock (b : Block) : BlockSummary :=
  { number := b.number, hash := b.hash, timestamp := b.timestamp,
    parent_hash := b.parent_hash, ops := [], entity_balance_updates := [] }

/-- `BlockSummary::try_from_block_without_ops`. -/
def try_from_block_without_ops (b : Block) (expected_block_number : Option Nat) :
    Except String BlockSummary :=
  match expected_block_number with
  | some e =>
    if b.number = e then .ok (summaryOfBlock b)
    else .error "block number should match expected"
  | none => .ok (summaryOfBlock b)

/-- `Chain::block_with_number`. -/
def block_with_number (blocks : List BlockSummary) (number : Nat) :
    Option BlockSummary :=
  match blocks.head? with
  | none => none
  | some front =>
    if number < front.number then none
    else blocks[number - front.number]?

/-- `ChainUpdate::deduped_ops`.  The source collects each list's hashes into a
`HashSet` and filters the other list on non-membership; membership in a set
built from a list is embedded as list membership. -/
def deduped_ops (u : ChainUpdate) : DedupedOps :=
  let mined_op_hashes := u.mined_ops.map (·.hash)
  let unmined_op_hashes := u.unmined_ops.map (·.hash)
  { mined_ops := u.mined_ops.filter (fun op => !(unmined_op_hashes.contains op.hash)),
    unmined_ops := u.unmined_ops.filter (fun op => !(mined_op_hashes.contains op.hash)) }

/-- Wrapping `usize` subtraction (release-mode Rust semantics of `a - b` for
`a, b < 2 ^ 64`).  A debug build would instead panic when `b > a`; the
divergence between the two only matters where a claim is about that corner. -/
def usizeSub (a b : Nat) : Nat :=
  if b ≤ a then a - b else 2 ^ 64 - (b - a)

/-- One backwards parent-walk loop of `load_blocks_back_to_number_no_ops`,
with explicit fuel.  `front` is `blocks[0]` of the deque being built and
`rest` the blocks behind it.  The loop body fetches the parent of `front`
(`fetch_block_with_retries` collapses to `Provider.getBlock`), validates its
number, and pushes it to the front; each iteration decreases `front.number` by
one, so fuel `front.number + 1` (what the entry point passes) makes the
fuel-exhaustion branch unreachable. -/
def loadBlocksBackGo (p : Provider) (min_block_number : Nat) :
    Nat → BlockSummary → List BlockSummary → Except String (List BlockSummary)
  | 0, _, _ => .error "fuel exhausted"
  | fuel + 1, front, rest =>
    if front.number ≤ min_block_number then .ok (front :: rest)
    else
      match p.getBlock front.parent_hash with
      | none =>
        .error "unable to backtrack chain history due to missing parent block"
      | some parentBlock =>
        match try_from_block_without_ops parentBlock (some (front.number - 1)) with
        | .error e => .error e
        | .ok parentSummary => loadBlocksBackGo p min_block_number fuel parentSummary (front :: rest)

/-- `Chain::load_blocks_back_to_number_no_ops`. -/
def load_blocks_back_to_number_no_ops (p : Provider) (head : BlockSummary)
    (min_block_number : Nat) : Except String (List BlockSummary) :=
  loadBlocksBackGo p min_block_number (head.number + 1) head []

/-- `Chain::load_ops_into_block_summaries`: load the (ops, balance updates) of
every block by hash; a single failure fails the whole call (`try_join_all`). -/
def load_ops_into_block_summaries (p : Provider) (s : Settings) :
    List BlockSummary → Except String (List BlockSummary)
  | [] => .ok []
  | b :: rest =>
    match load_ops_in_block_with_hash p s b.hash,
          load_ops_into_block_summaries p s rest with
    | .ok (ops, balance_updates), .ok rest2 =>
      .ok ({ b with ops := ops, entity_balance_updates := balance_updates } :: rest2)
    | .error e, _ => .error e
    | _, .error e => .error e

/-- The reorg-resolution loop of
`load_added_blocks_connecting_to_existing_chain`, with explicit fuel.
`hist` is the current history buffer, `earliest` is `added_blocks[0]`, `rest`
the blocks behind it.  Stops when the earliest added block is genesis, is older
than the remembered history, or connects by parent hash to the remembered
block just below it; otherwise fetches that parent (number-validated) and
pushes it to the front.  Each iteration decreases `earliest.number` by one, so
fuel `earliest.number + 1` makes the fuel branch unreachable. -/
def reorgWalkGo (p : Provider) (hist : List BlockSummary) :
    Nat → BlockSummary → List BlockSummary → Except String (List BlockSummary)
  | 0, _, _ => .error "fuel exhausted"
  | fuel + 1, earliest, rest =>
    if earliest.number = 0 then .ok (earliest :: rest)
    else
      match block_with_number hist (earliest.number - 1) with
      | none => .ok (earliest :: rest)
      | some presumed_parent =>
        if presumed_parent.hash = earliest.parent_hash then .ok (earliest :: rest)
        else
          match p.getBlock earliest.parent_hash with
          | none => .error "block with parent hash of known block should exist"
          | some b =>
            match try_from_block_without_ops b (some (earliest.number - 1)) with
            | .error e => .error e
            | .ok s2 => reorgWalkGo p hist fuel s2 (earliest :: rest)

/-- `Chain::load_added_blocks_connecting_to_existing_chain`. -/
def load_added_blocks_connecting_to_existing_chain (p : Provider) (s : Settings)
    (st : ChainState) (current_block_number : Nat) (new_head : BlockSummary) :
    Except String (List BlockSummary) :=
  match load_blocks_back_to_number_no_ops p new_head (current_block_number + 1) with
  | .error _ => .error "chain should load blocks from last processed to latest block"
  | .ok added_blocks =>
    match added_blocks with
    | [] => .error "added blocks should never be empty"
    | front :: rest =>
      match reorgWalkGo p st.blocks (front.number + 1) front rest with
      | .error e => .error e
      | .ok added2 => load_ops_into_block_summaries p s added2

/-- `Chain::new_update` (reads the post-mutation buffer). -/
def new_update (st : ChainState) (reorg_depth : Nat) (mined_ops : List MinedOp)
    (unmined_ops : List MinedOp) (entity_balance_updates : List BalanceUpdate)
    (unmined_entity_balance_updates : List BalanceUpdate)
    (reorg_larger_than_history : Bool) : ChainUpdate :=
  let latest_block := st.blocks.getLastD emptyBlockSummary
  { latest_block_number := latest_block.number,
    latest_block_hash := latest_block.hash,
    latest_block_timestamp := latest_block.timestamp,
    earliest_remembered_block_number := (st.blocks.headD emptyBlockSummary).number,
    reorg_depth := reorg_depth,
    mined_ops := mined_ops,
    unmined_ops := unmined_ops,
    entity_balance_updates := entity_balance_updates,
    unmined_entity_balance_updates := unmined_entity_balance_updates,
    reorg_larger_than_history := reorg_larger_than_history }

/-- `Chain::update_with_blocks`.  Deque operations become list operations:
`reorg_depth` times `pop_back` is `take (len - reorg_depth)` (truncated `Nat`
subtraction agrees: popping an empty deque is a no-op); the `while` trim loop
is `drop (len - history_size)`.  The `skip(self.blocks.len() - reorg_depth)`
for the unmined lists is a `usize` subtraction and is embedded with exact
wrapping semantics, `usizeSub`. -/
def update_with_blocks (s : Settings) (st : ChainState)
    (current_block_number : Nat) (added_blocks : List BlockSummary) :
    ChainUpdate × ChainState :=
  let mined_ops := added_blocks.flatMap (·.ops)
  let entity_balance_updates := added_blocks.flatMap (·.entity_balance_updates)
  let reorg_depth := current_block_number + 1 - (added_blocks.headD emptyBlockSummary).number
  let skipCount := usizeSub st.blocks.length reorg_depth
  let unmined_ops := (st.blocks.drop skipCount).flatMap (·.ops)
  let unmined_entity_balance_updates :=
    (st.blocks.drop skipCount).flatMap (·.entity_balance_updates)
  let is_reorg_larger_than_history := decide (s.history_size ≤ reorg_depth)
  let blocks1 := st.blocks.take (st.blocks.length - reorg_depth) ++ added_blocks
  let blocks2 := blocks1.drop (blocks1.length - s.history_size)
  let st2 : ChainState := { blocks := blocks2, sync_error_count := st.sync_error_count }
  (new_update st2 reorg_depth mined_ops unmined_ops entity_balance_updates
    unmined_entity_balance_updates is_reorg_larger_than_history, st2)

/-- `Chain::reset_and_initialize` (the name is shortened here).  The state is
replaced only after every block fetch and log load has succeeded. -/
def reset_and_init (p : Provider) (s : Settings) (st : ChainState)
    (head : BlockSummary) : Except String ChainUpdate × ChainState :=
  let min_block_number := head.number - (s.history_size - 1)
  match load_blocks_back_to_number_no_ops p head min_block_number with
  | .error _ => (.error "should load full history when resetting chain", st)
  | .ok blocks0 =>
    match load_ops_into_block_summaries p s blocks0 with
    | .error e => (.error e, st)
    | .ok blocks1 =>
      let st2 : ChainState := { blocks := blocks1, sync_error_count := 0 }
      let mined_ops := blocks1.flatMap (·.ops)
      let entity_balance_updates := blocks1.flatMap (·.entity_balance_updates)
      (.ok (new_update st2 0 mined_ops [] entity_balance_updates [] false), st2)

/-- `Chain::sync_to_block`.  Returns the outcome together with the post state
(the source mutates `self.sync_error_count` even on the stale-head error
path). -/
def sync_to_block (p : Provider) (s : Settings) (st : ChainState)
    (new_head_block : Block) : Except String ChainUpdate × ChainState :=
  let new_head := summaryOfBlock new_head_block
  match st.blocks.getLast? with
  | none => reset_and_init p s st new_head
  | some current_block =>
    let current_block_number := current_block.number
    let new_block_number := new_head.number
    if new_block_number + s.history_size < current_block_number then
      let st1 : ChainState := { st with sync_error_count := st.sync_error_count + 1 }
      if SYNC_ERROR_COUNT_MAX ≤ st1.sync_error_count then
        reset_and_init p s st1 new_head
      else
        (.error "new block number should be greater than start of history", st1)
    else if current_block_number + s.history_size < new_block_number then
      reset_and_init p s st new_head
    else
      match load_added_blocks_connecting_to_existing_chain p s st
              current_block_number new_head with
      | .error e => (.error e, st)
      | .ok added_blocks =>
        let r := update_with_blocks s st current_block_number added_blocks
        (.ok r.1, r.2)

/-- Adjacency condition of the history-buffer invariant: `b` directly extends
`a`. -/
def chainLinked (a b : BlockSummary) : Bool :=
  b.number == a.number + 1 && b.parent_hash == a.hash

/-- The history-buffer chain invariant: every adjacent pair is contiguous in
number and linked by parent hash. -/
def chainOk : List BlockSummary → Bool
  | [] => true
  | [_] => true
  | a :: b :: rest => chainLinked a b && chainOk (b :: rest)

/-- Provider sanity: a block fetched by hash has that hash.  `get_block` is
keyed by block hash, and the hash-link facts about the tracker's buffer hold
under this assumption (the source never re-checks the returned hash). -/
def GoodProvider (p : Provider) : Prop :=
  ∀ h b, p.getBlock h = some b → b.hash = h

/-- Header metadata of a summary (everything but the loaded ops). -/
def metaOf (b : BlockSummary) : Nat × Nat × Nat × Nat :=
  (b.number, b.hash, b.parent_hash, b.timestamp)

/-- The adjacency relation of the buffer invariant, as a proposition. -/
def BlockLink (a b : BlockSummary) : Prop :=
  b.number = a.number + 1 ∧ b.parent_hash = a.hash

/-- The possible stop conditions of the reorg-resolution loop, observed at the
front block `f` of the added deque: `f` is genesis, or the block below `f` is
not remembered, or it is remembered and hash-links to `f`. -/
def reorgStop (hist : List BlockSummary) (f : BlockSummary) : Prop :=
  f.number = 0 ∨ block_with_number hist (f.number - 1) = none ∨
    ∃ pb, block_with_number hist (f.number - 1) = some pb ∧ pb.hash = f.parent_hash

/-- A log that the per-log loop of `load_ops_in_block_with_hash` ignores: its
address is not configured (or maps to Unspecified), its topic0 is missing or
not a recognized signature for its configured version, or its payload fails to
decode as the event its topic0 announces. -/
def logSkipped (s : Settings) (l : Log) : Bool :=
  match lookupVersion s l.address with
  | none => true
  | some EntryPointVersion.unspecified => true
  | some EntryPointVersion.v0_6 =>
    match l.topic0 with
    | none => true
    | some t =>
      if t = SIG_USER_OPERATION_EVENT_V0_6 then l.decodeUserOpV06.isNone
      else if t = SIG_DEPOSITED_V0_6 then l.decodeDepositedV06.isNone
      else if t = SIG_WITHDRAWN_V0_6 then l.decodeWithdrawnV06.isNone
      else true
  | some EntryPointVersion.v0_7 =>
    match l.topic0 with
    | none => true
    | some t =>
      if t = SIG_USER_OPERATION_EVENT_V0_7 then l.decodeUserOpV07.isNone
      else if t = SIG_DEPOSITED_V0_7 then l.decodeDepositedV07.isNone
      else if t = SIG_WITHDRAWN_V0_7 then l.decodeWithdrawnV07.isNone
      else true

/-! Concrete instances used by witnesses and counterexamples. -/

/-- A provider that has no blocks and empty log batches. -/
def cexProvider : Provider := ⟨fun _ => none, fun _ => some []⟩

/-- Settings with `history_size = 3` and no configured entry points. -/
def cexSettings : Settings := ⟨3, []⟩

/-- A mined op sitting in the newest buffered block of the counterexample
state. -/
def cexOp : MinedOp := ⟨107, 1000, 7, 0, 0, none⟩

/-- Hash-linked buffered blocks numbered 5, 6, 7 (hash of block n is 900 + n). -/
def cexB5 : BlockSummary := ⟨5, 905, 0, 904, [], []⟩
def cexB6 : BlockSummary := ⟨6, 906, 0, 905, [], []⟩
def cexB7 : BlockSummary := ⟨7, 907, 0, 906, [cexOp], []⟩

/-- Buffer holding blocks 5..7 (`history_size` many), newest block holds one
op. -/
def cexState : ChainState := ⟨[cexB5, cexB6, cexB7], 0⟩

/-- A new head at number 4 = back.number - history_size: one block below the
remembered window, yet not caught by the stale-head fence
(`7 > 4 + 3` is false). -/
def cexHead : Block := ⟨4, 904, 0, 903⟩

/-- The update the modelled code emits at the counterexample input. -/
def cexUpdate : ChainUpdate := ⟨4, 904, 0, 4, 4, [], [], [], [], true⟩

/-- The post state at the counterexample input. -/
def cexStateAfter : ChainState := ⟨[⟨4, 904, 0, 903, [], []⟩], 0⟩

/-- The empty pre-sync state. -/
def emptyState : ChainState := ⟨[], 0⟩

def w1Head : Block := ⟨0, 100, 9, 99⟩
def w1After : ChainState := ⟨[⟨0, 100, 9, 99, [], []⟩], 0⟩
def w1Update : ChainUpdate := ⟨0, 100, 9, 0, 0, [], [], [], [], false⟩

def w3Settings : Settings := ⟨1, []⟩
def w3Head : BlockSummary := ⟨7, 77, 3, 70, [], []⟩
def w3After : ChainState := ⟨[⟨7, 77, 3, 70, [], []⟩], 0⟩
def w3Update : ChainUpdate := ⟨7, 77, 3, 7, 0, [], [], [], [], false⟩

/-- A state whose back block (number 100) is impossibly far ahead of the next
head (number 1): the stale-head path. -/
def w4State : ChainState := ⟨[⟨100, 200, 0, 199, [], []⟩], 10⟩
def w4Head : Block := ⟨1, 11, 0, 10⟩

def w7OpA : MinedOp := ⟨1, 0, 10, 0, 0, none⟩
def w7OpB : MinedOp := ⟨2, 0, 11, 0, 0, none⟩
def w7OpB2 : MinedOp := ⟨2, 0, 12, 0, 0, none⟩
def w7OpC : MinedOp := ⟨3, 0, 13, 0, 0, none⟩

/-- An update whose mined and unmined lists share one op hash (2). -/
def w7Update : ChainUpdate :=
  ⟨0, 0, 0, 0, 0, [w7OpA, w7OpB], [w7OpB2, w7OpC], [], [], false⟩

/-- Settings that configure address 500 as a v0.6 entry point. -/
def w9Settings : Settings := ⟨3, [(500, EntryPointVersion.v0_6)]⟩
def w9Event : UserOperationEventData := ⟨41, 42, 0, 43, true, 44, 45⟩
def w9Log : Log :=
  ⟨500, some SIG_USER_OPERATION_EVENT_V0_6, some w9Event, none, none, none, none, none⟩

/-- A log from an unconfigured address. -/
def w10Log : Log := ⟨999, some SIG_USER_OPERATION_EVENT_V0_6, none, none, none, none, none, none⟩
def w10Provider : Provider := ⟨fun _ => none, fun _ => some [w10Log]⟩

/-! Chain-invariant infrastructure. -/

theorem chainLinked_iff {a b : BlockSummary} : chainLinked a b = true ↔ BlockLink a b := by
  simp [chainLinked, BlockLink]

theorem chainOk_iff (l : List BlockSummary) :
    chainOk l = true ↔ List.Chain' BlockLink l := by
  induction l with
  | nil => simp [chainOk]
  | cons a t ih =>
    cases t with
    | nil => simp [chainOk]
    | cons b rest =>
      simp only [chainOk, Bool.and_eq_true, chainLinked_iff, List.chain'_cons]
      exact and_congr Iff.rfl ih

theorem chain'_glue {R : BlockSummary → BlockSummary → Prop}
    {xs ys : List BlockSummary} {a : BlockSummary}
    (h1 : List.Chain' R (xs ++ [a])) (h2 : List.Chain' R (a :: ys)) :
    List.Chain' R (xs ++ a :: ys) := by
  obtain ⟨hxs, -, hlink⟩ := List.chain'_append.mp h1
  refine List.chain'_append.mpr ⟨hxs, h2, ?_⟩
  intro x hx y hy
  simp only [List.head?_cons, Option.mem_def, Option.some.injEq] at hy
  subst hy
  exact hlink x hx a (by simp)

theorem chain_map_number : ∀ (t : List BlockSummary) (a : BlockSummary),
    List.Chain' BlockLink (a :: t) →
    (a :: t).map (·.number) = List.range' a.number (t.length + 1) := by
  intro t
  induction t with
  | nil => intro a _; simp [List.range']
  | cons b rest ih =>
    intro a h
    rw [List.chain'_cons] at h
    have hm := ih b h.2
    have hb : b.number = a.number + 1 := h.1.1
    simp only [List.map_cons, List.length_cons] at hm ⊢
    rw [List.range'_succ, ← hb, hm]

theorem chain_getLastD_number : ∀ (t : List BlockSummary) (a d : BlockSummary),
    List.Chain' BlockLink (a :: t) →
    ((a :: t).getLastD d).number = a.number + t.length := by
  intro t
  induction t with
  | nil => intro a d _; rfl
  | cons b rest ih =>
    intro a d h
    rw [List.chain'_cons] at h
    rw [List.getLastD_cons, ih b a h.2, h.1.1, List.length_cons]
    omega

theorem chain_getElem?_number (l : List BlockSummary) (f : BlockSummary)
    (hc : List.Chain' BlockLink l) (hf : l.head? = some f) :
    ∀ i, i < l.length → ∃ b, l[i]? = some b ∧ b.number = f.number + i := by
  cases l with
  | nil => simp at hf
  | cons a t =>
    rw [List.head?_cons, Option.some.injEq] at hf
    subst hf
    intro i hi
    have hm := chain_map_number t a hc
    have h1 : ((a :: t).map (·.number))[i]? = some (a.number + i) := by
      rw [hm, List.getElem?_range' _ _ (by simpa using hi)]
      simp
    rw [List.getElem?_map] at h1
    cases h3 : (a :: t)[i]? with
    | none => rw [h3] at h1; simp at h1
    | some b =>
      rw [h3] at h1
      simp only [Option.map_some', Option.some.injEq] at h1
      exact ⟨b, rfl, h1⟩

theorem block_with_number_eq (l : List BlockSummary) (f : BlockSummary) (n : Nat)
    (hf : l.head? = some f) (hn : f.number ≤ n) :
    block_with_number l n = l[n - f.number]? := by
  simp only [block_with_number, hf]
  rw [if_neg (Nat.not_lt.mpr hn)]

theorem block_with_number_lt (l : List BlockSummary) (f : BlockSummary) (n : Nat)
    (hf : l.head? = some f) (hn : n < f.number) :
    block_with_number l n = none := by
  simp only [block_with_number, hf]
  rw [if_pos hn]

theorem block_with_number_some_number (l : List BlockSummary) (n : Nat)
    (hc : List.Chain' BlockLink l) :
    ∀ b, block_with_number l n = some b → b.number = n := by
  intro b hb
  cases hf : l.head? with
  | none =>
    simp only [block_with_number, hf] at hb
    exact Option.noConfusion hb
  | some f =>
    by_cases hn : n < f.number
    · rw [block_with_number_lt l f n hf hn] at hb
      cases hb
    · rw [block_with_number_eq l f n hf (Nat.not_lt.mp hn)] at hb
      have hlt : n - f.number < l.length := by
        by_contra hge
        rw [List.getElem?_eq_none (Nat.le_of_not_lt hge)] at hb
        cases hb
      obtain ⟨b2, hb2, hnum⟩ := chain_getElem?_number l f hc hf _ hlt
      rw [hb] at hb2
      cases hb2
      omega

theorem block_with_number_exists (l : List BlockSummary) (f : BlockSummary) (n : Nat)
    (hf : l.head? = some f) (hn : f.number ≤ n) (hlt : n - f.number < l.length) :
    ∃ b, block_with_number l n = some b := by
  rw [block_with_number_eq l f n hf hn]
  cases h : l[n - f.number]? with
  | none =>
    rw [List.getElem?_eq_none_iff] at h
    omega
  | some b => exact ⟨b, rfl⟩

/-! Loader lemmas. -/

theorem try_from_block_ok {b : Block} {e : Nat} {bs : BlockSummary}
    (h : try_from_block_without_ops b (some e) = .ok bs) :
    bs = summaryOfBlock b ∧ b.number = e := by
  simp only [try_from_block_without_ops] at h
  by_cases hn : b.number = e
  · rw [if_pos hn] at h
    cases h
    exact ⟨rfl, hn⟩
  · rw [if_neg hn] at h
    cases h

theorem loadBlocksBackGo_ok (p : Provider) (minN : Nat) (hp : GoodProvider p) :
    ∀ (fuel : Nat) (front : BlockSummary) (rest l : List BlockSummary),
      front.number < fuel →
      loadBlocksBackGo p minN fuel front rest = .ok l →
      ∃ pre, l = pre ++ front :: rest ∧
        List.Chain' BlockLink (pre ++ [front]) ∧
        ∀ f, l.head? = some f → f.number = min minN front.number := by
  intro fuel
  induction fuel with
  | zero => intro front rest l hlt; exact absurd hlt (Nat.not_lt_zero _)
  | succ fuel ih =>
    intro front rest l hlt hok
    rw [loadBlocksBackGo] at hok
    split at hok
    · -- front.number ≤ minN : the loop guard fails and the deque is returned
      rename_i hle
      cases hok
      refine ⟨[], rfl, List.chain'_singleton front, ?_⟩
      intro f hf
      rw [List.head?_cons, Option.some.injEq] at hf
      subst hf
      omega
    · rename_i hgt
      split at hok
      · cases hok
      · rename_i b hgb
        split at hok
        · cases hok
        · rename_i sb htb
          obtain ⟨hsb, hbn⟩ := try_from_block_ok htb
          subst hsb
          have hsn : (summaryOfBlock b).number = b.number := rfl
          have hlt2 : (summaryOfBlock b).number < fuel := by
            rw [hsn, hbn]
            omega
          obtain ⟨pre2, hl, hch, hhead⟩ := ih _ _ _ hlt2 hok
          refine ⟨pre2 ++ [summaryOfBlock b], by rw [hl]; simp, ?_, ?_⟩
          · refine List.chain'_append.mpr ⟨hch, List.chain'_singleton front, ?_⟩
            intro x hx y hy
            simp only [List.head?_cons, Option.mem_def, Option.some.injEq] at hy
            subst hy
            rw [Option.mem_def, List.getLast?_concat] at hx
            cases hx
            constructor
            · show front.number = (summaryOfBlock b).number + 1
              rw [hsn, hbn]
              omega
            · exact (hp _ _ hgb).symm
          · intro f hf
            have h5 := hhead f hf
            rw [hsn, hbn] at h5
            omega

theorem load_blocks_back_ok (p : Provider) (head : BlockSummary) (minN : Nat)
    (l : List BlockSummary) (hp : GoodProvider p)
    (hok : load_blocks_back_to_number_no_ops p head minN = .ok l) :
    ∃ pre, l = pre ++ [head] ∧ List.Chain' BlockLink l ∧
      ∀ f, l.head? = some f → f.number = min minN head.number := by
  obtain ⟨pre, hl, hch, hhead⟩ :=
    loadBlocksBackGo_ok p minN hp (head.number + 1) head [] l (Nat.lt_succ_self _) hok
  exact ⟨pre, hl, by rw [hl]; exact hch, hhead⟩

theorem reorgWalkGo_ok (p : Provider) (hist : List BlockSummary) (hp : GoodProvider p) :
    ∀ (fuel : Nat) (front : BlockSummary) (rest l : List BlockSummary),
      front.number < fuel →
      reorgWalkGo p hist fuel front rest = .ok l →
      ∃ pre, l = pre ++ front :: rest ∧
        List.Chain' BlockLink (pre ++ [front]) ∧
        ∀ f, l.head? = some f → f.number ≤ front.number ∧ reorgStop hist f := by
  intro fuel
  induction fuel with
  | zero => intro front rest l hlt; exact absurd hlt (Nat.not_lt_zero _)
  | succ fuel ih =>
    intro front rest l hlt hok
    rw [reorgWalkGo] at hok
    split at hok
    · -- earliest.number = 0
      rename_i hzero
      cases hok
      refine ⟨[], rfl, List.chain'_singleton front, ?_⟩
      intro f hf
      rw [List.head?_cons, Option.some.injEq] at hf
      subst hf
      exact ⟨Nat.le_refl _, Or.inl hzero⟩
    · rename_i hnz
      split at hok
      · -- block below the front is not remembered
        rename_i hbwn
        cases hok
        refine ⟨[], rfl, List.chain'_singleton front, ?_⟩
        intro f hf
        rw [List.head?_cons, Option.some.injEq] at hf
        subst hf
        exact ⟨Nat.le_refl _, Or.inr (Or.inl hbwn)⟩
      · rename_i pb hbwn
        split at hok
        · -- hashes match: the chains connect
          rename_i hhash
          cases hok
          refine ⟨[], rfl, List.chain'_singleton front, ?_⟩
          intro f hf
          rw [List.head?_cons, Option.some.injEq] at hf
          subst hf
          exact ⟨Nat.le_refl _, Or.inr (Or.inr ⟨pb, hbwn, hhash⟩)⟩
        · rename_i hhash
          split at hok
          · cases hok
          · rename_i b hgb
            split at hok
            · cases hok
            · rename_i sb htb
              obtain ⟨hsb, hbn⟩ := try_from_block_ok htb
              subst hsb
              have hsn : (summaryOfBlock b).number = b.number := rfl
              have hlt2 : (summaryOfBlock b).number < fuel := by
                rw [hsn, hbn]
                omega
              obtain ⟨pre2, hl, hch, hhead⟩ := ih _ _ _ hlt2 hok
              refine ⟨pre2 ++ [summaryOfBlock b], by rw [hl]; simp, ?_, ?_⟩
              · refine List.chain'_append.mpr ⟨hch, List.chain'_singleton front, ?_⟩
                intro x hx y hy
                simp only [List.head?_cons, Option.mem_def, Option.some.injEq] at hy
                subst hy
                rw [Option.mem_def, List.getLast?_concat] at hx
                cases hx
                constructor
                · show front.number = (summaryOfBlock b).number + 1
                  rw [hsn, hbn]
                  omega
                · exact (hp _ _ hgb).symm
              · intro f hf
                obtain ⟨h5, h6⟩ := hhead f hf
                refine ⟨?_, h6⟩
                rw [hsn, hbn] at h5
                omega

/-! Metadata preservation through `load_ops_into_block_summaries`. -/

theorem load_ops_meta (p : Provider) (s : Settings) :
    ∀ (l l2 : List BlockSummary),
      load_ops_into_block_summaries p s l = .ok l2 →
      l2.map metaOf = l.map metaOf := by
  intro l
  induction l with
  | nil =>
    intro l2 h
    rw [load_ops_into_block_summaries] at h
    cases h
    rfl
  | cons b rest ih =>
    intro l2 h
    rw [load_ops_into_block_summaries] at h
    split at h
    · rename_i ops balance_updates rest2 h1 h2
      cases h
      simp only [List.map_cons]
      rw [ih rest2 h2]
      rfl
    · cases h
    · cases h

theorem metaOf_number {a b : BlockSummary} (h : metaOf a = metaOf b) :
    a.number = b.number := by
  simp only [metaOf, Prod.mk.injEq] at h
  exact h.1

theorem metaOf_hash {a b : BlockSummary} (h : metaOf a = metaOf b) : a.hash = b.hash := by
  simp only [metaOf, Prod.mk.injEq] at h
  exact h.2.1

theorem metaOf_parent_hash {a b : BlockSummary} (h : metaOf a = metaOf b) :
    a.parent_hash = b.parent_hash := by
  simp only [metaOf, Prod.mk.injEq] at h
  exact h.2.2.1

theorem metaOf_timestamp {a b : BlockSummary} (h : metaOf a = metaOf b) :
    a.timestamp = b.timestamp := by
  simp only [metaOf, Prod.mk.injEq] at h
  exact h.2.2.2

theorem blockLink_of_meta {a a2 b b2 : BlockSummary} (ha : metaOf a = metaOf a2)
    (hb : metaOf b = metaOf b2) (h : BlockLink a b) : BlockLink a2 b2 := by
  obtain ⟨h1, h2⟩ := h
  constructor
  · rw [← metaOf_number hb, ← metaOf_number ha]
    exact h1
  · rw [← metaOf_parent_hash hb, ← metaOf_hash ha]
    exact h2

theorem map_meta_length {l l2 : List BlockSummary}
    (h : l.map metaOf = l2.map metaOf) : l.length = l2.length := by
  have := congrArg List.length h
  simpa using this

theorem map_meta_chain' : ∀ (l l2 : List BlockSummary),
    l.map metaOf = l2.map metaOf →
    List.Chain' BlockLink l → List.Chain' BlockLink l2 := by
  intro l
  induction l with
  | nil =>
    intro l2 h _
    cases l2 with
    | nil => exact List.chain'_nil
    | cons b t => simp at h
  | cons a t ih =>
    intro l2 h hc
    cases l2 with
    | nil => simp at h
    | cons a2 t2 =>
      simp only [List.map_cons, List.cons.injEq] at h
      rw [List.chain'_cons'] at hc ⊢
      refine ⟨?_, ih t2 h.2 hc.2⟩
      intro y2 hy2
      cases t2 with
      | nil => cases hy2
      | cons c2 u2 =>
        simp only [List.head?_cons, Option.mem_def, Option.some.injEq] at hy2
        subst hy2
        cases t with
        | nil => simp at h
        | cons c u =>
          simp only [List.map_cons, List.cons.injEq] at h
          have hlink := hc.1 c (by simp)
          exact blockLink_of_meta h.1 h.2.1 hlink

theorem map_meta_head {l l2 : List BlockSummary} {f : BlockSummary}
    (h : l.map metaOf = l2.map metaOf) (hf : l.head? = some f) :
    ∃ f2, l2.head? = some f2 ∧ metaOf f2 = metaOf f := by
  have h1 : (l.map metaOf).head? = (l2.map metaOf).head? := by rw [h]
  rw [List.head?_map, List.head?_map, hf] at h1
  cases hf2 : l2.head? with
  | none => rw [hf2] at h1; cases h1
  | some f2 =>
    rw [hf2] at h1
    simp only [Option.map_some', Option.some.injEq] at h1
    exact ⟨f2, rfl, h1.symm⟩

theorem map_meta_getLast {l l2 : List BlockSummary} {g : BlockSummary}
    (h : l.map metaOf = l2.map metaOf) (hg : l.getLast? = some g) :
    ∃ g2, l2.getLast? = some g2 ∧ metaOf g2 = metaOf g := by
  have h1 : (l.map metaOf).getLast? = (l2.map metaOf).getLast? := by rw [h]
  rw [List.getLast?_map, List.getLast?_map, hg] at h1
  cases hg2 : l2.getLast? with
  | none => rw [hg2] at h1; cases h1
  | some g2 =>
    rw [hg2] at h1
    simp only [Option.map_some', Option.some.injEq] at h1
    exact ⟨g2, rfl, h1.symm⟩

theorem map_meta_number {l l2 : List BlockSummary}
    (h : l.map metaOf = l2.map metaOf) :
    l.map (·.number) = l2.map (·.number) := by
  have h1 := congrArg (List.map Prod.fst) h
  rw [List.map_map, List.map_map] at h1
  exact h1

/-! Specification of a successful `reset_and_init`. -/

theorem reset_ok (p : Provider) (s : Settings) (st : ChainState)
    (head : BlockSummary) (u : ChainUpdate) (st' : ChainState)
    (hp : GoodProvider p) (hH : 1 ≤ s.history_size)
    (hok : reset_and_init p s st head = (.ok u, st')) :
    st'.sync_error_count = 0 ∧
    st'.blocks.map (·.number) =
      List.range' (head.number - (s.history_size - 1))
        (head.number + 1 - (head.number - (s.history_size - 1))) ∧
    List.Chain' BlockLink st'.blocks ∧
    st'.blocks ≠ [] ∧
    st'.blocks.length ≤ s.history_size ∧
    (∃ g, st'.blocks.getLast? = some g ∧ metaOf g = metaOf head) ∧
    u = new_update st' 0 (st'.blocks.flatMap (·.ops)) []
          (st'.blocks.flatMap (·.entity_balance_updates)) [] false := by
  rw [reset_and_init] at hok
  split at hok
  · cases hok
  · rename_i blocks0 hload1
    split at hok
    · cases hok
    · rename_i blocks1 hload2
      simp only [Prod.mk.injEq, Except.ok.injEq] at hok
      obtain ⟨hu, hst⟩ := hok
      subst hst
      obtain ⟨pre0, hbl0, hch0, hhead0⟩ := load_blocks_back_ok p head _ blocks0 hp hload1
      have hne0 : blocks0 ≠ [] := by rw [hbl0]; simp
      have hmeta : blocks1.map metaOf = blocks0.map metaOf := load_ops_meta p s blocks0 blocks1 hload2
      cases blocks0 with
      | nil => exact absurd rfl hne0
      | cons a t =>
        have ha : a.number = min (head.number - (s.history_size - 1)) head.number :=
          hhead0 a rfl
        have hminle : head.number - (s.history_size - 1) ≤ head.number := Nat.sub_le _ _
        have ha2 : a.number = head.number - (s.history_size - 1) := by omega
        have hlast0 : (a :: t).getLast? = some head := by rw [hbl0]; exact List.getLast?_concat _
        have hlastD : (a :: t).getLastD emptyBlockSummary = head := by
          rw [List.getLastD_eq_getLast?, hlast0]
          rfl
        have hcount : head.number = a.number + t.length := by
          rw [← chain_getLastD_number t a emptyBlockSummary hch0, hlastD]
        have hmap0 : (a :: t).map (·.number) = List.range' a.number (t.length + 1) :=
          chain_map_number t a hch0
        have hmap1 : blocks1.map (·.number) = List.range' a.number (t.length + 1) := by
          rw [map_meta_number hmeta, hmap0]
        have hlen1 : blocks1.length = t.length + 1 := by
          have := congrArg List.length hmap1
          simpa using this
        refine ⟨rfl, ?_, ?_, ?_, ?_, ?_, ?_⟩
        · show blocks1.map (·.number) = _
          rw [hmap1, ha2]
          congr 1
          omega
        · show List.Chain' BlockLink blocks1
          exact map_meta_chain' (a :: t) blocks1 hmeta.symm hch0
        · show blocks1 ≠ []
          intro hnil
          rw [hnil] at hlen1
          simp at hlen1
        · show blocks1.length ≤ s.history_size
          rw [hlen1]
          omega
        · show ∃ g, blocks1.getLast? = some g ∧ metaOf g = metaOf head
          obtain ⟨g2, hg2, hg2m⟩ := map_meta_getLast hmeta.symm hlast0
          exact ⟨g2, hg2, hg2m⟩
        · exact hu.symm

theorem reorgStop_meta (hist : List BlockSummary) {f1 f2 : BlockSummary}
    (h : metaOf f1 = metaOf f2) (hs : reorgStop hist f1) : reorgStop hist f2 := by
  unfold reorgStop at hs ⊢
  rw [← metaOf_number h, ← metaOf_parent_hash h]
  exact hs

theorem chain_length_eq (l : List BlockSummary) (f g : BlockSummary)
    (hc : List.Chain' BlockLink l) (hf : l.head? = some f) (hg : l.getLast? = some g) :
    g.number + 1 = f.number + l.length := by
  cases l with
  | nil => cases hf
  | cons a t =>
    rw [List.head?_cons, Option.some.injEq] at hf
    subst hf
    have h1 : (a :: t).getLastD emptyBlockSummary = g := by
      rw [List.getLastD_eq_getLast?, hg]
      rfl
    have h2 := chain_getLastD_number t a emptyBlockSummary hc
    rw [h1] at h2
    simp only [List.length_cons]
    omega

theorem getLast?_take {α : Type} {l : List α} {n : Nat} (hn : 0 < n)
    (hle : n ≤ l.length) : (l.take n).getLast? = l[n - 1]? := by
  rw [List.getLast?_eq_getElem?, List.length_take, Nat.min_eq_left hle,
    List.getElem?_take_of_lt (by omega)]

theorem load_added_ok (p : Provider) (s : Settings) (st : ChainState)
    (cur : Nat) (new_head : BlockSummary) (added : List BlockSummary)
    (hp : GoodProvider p)
    (hok : load_added_blocks_connecting_to_existing_chain p s st cur new_head = .ok added) :
    added ≠ [] ∧ List.Chain' BlockLink added ∧
    ∀ f, added.head? = some f →
      f.number ≤ min (cur + 1) new_head.number ∧ reorgStop st.blocks f := by
  rw [load_added_blocks_connecting_to_existing_chain] at hok
  split at hok
  · cases hok
  · rename_i added0 hlbb
    split at hok
    · cases hok
    · rename_i front0 rest0
      split at hok
      · cases hok
      · rename_i added1 hwalk
        obtain ⟨pre0, hbl0, hch0, hhead0⟩ := load_blocks_back_ok p new_head _ _ hp hlbb
        obtain ⟨pre1, hadded1, hch1, hhead1⟩ :=
          reorgWalkGo_ok p st.blocks hp (front0.number + 1) front0 rest0 added1
            (Nat.lt_succ_self _) hwalk
        have hch1full : List.Chain' BlockLink added1 := by
          rw [hadded1]
          exact chain'_glue hch1 hch0
        have hmeta : added.map metaOf = added1.map metaOf := load_ops_meta p s added1 added hok
        have hlen : added.length = added1.length := map_meta_length hmeta
        refine ⟨?_, map_meta_chain' added1 added hmeta.symm hch1full, ?_⟩
        · intro hnil
          rw [hnil] at hlen
          rw [hadded1] at hlen
          simp at hlen
          omega
        · intro f hf
          obtain ⟨f1, hf1, hf1m⟩ := map_meta_head hmeta hf
          obtain ⟨h5, h6⟩ := hhead1 f1 hf1
          have hfront0 : front0.number = min (cur + 1) new_head.number :=
            hhead0 front0 rfl
          refine ⟨?_, reorgStop_meta st.blocks hf1m h6⟩
          rw [← metaOf_number hf1m]
          omega

/-- C1: every successful `sync_to_block` (through `reset_and_init` or
`update_with_blocks`) leaves a non-empty history buffer of length at most
`history_size` in which every adjacent pair of summaries is contiguous in
block number and linked by parent hash. -/
theorem claim_C1 (p : Provider) (s : Settings) (st : ChainState) (nh : Block)
    (hp : GoodProvider p) (hH : 1 ≤ s.history_size) (hc : chainOk st.blocks = true) :
    ∀ u st', sync_to_block p s st nh = (.ok u, st') →
      st'.blocks ≠ [] ∧ st'.blocks.length ≤ s.history_size ∧
      chainOk st'.blocks = true := by
  intro u st' hok
  simp only [sync_to_block] at hok
  split at hok
  · obtain ⟨-, -, hch, hne, hlen, -, -⟩ := reset_ok p s st _ u st' hp hH hok
    exact ⟨hne, hlen, (chainOk_iff _).mpr hch⟩
  · rename_i current hlast
    split at hok
    · split at hok
      · obtain ⟨-, -, hch, hne, hlen, -, -⟩ := reset_ok p s _ _ u st' hp hH hok
        exact ⟨hne, hlen, (chainOk_iff _).mpr hch⟩
      · cases hok
    · split at hok
      · obtain ⟨-, -, hch, hne, hlen, -, -⟩ := reset_ok p s st _ u st' hp hH hok
        exact ⟨hne, hlen, (chainOk_iff _).mpr hch⟩
      · split at hok
        · cases hok
        · rename_i added hadd
          simp only [Prod.mk.injEq, Except.ok.injEq] at hok
          obtain ⟨hu, hst⟩ := hok
          obtain ⟨hne, hchadd, hheadf⟩ :=
            load_added_ok p s st current.number (summaryOfBlock nh) added hp hadd
          cases added with
          | nil => exact absurd rfl hne
          | cons f2 addedT =>
            obtain ⟨hrle, hstop⟩ := hheadf f2 rfl
            have hcst : List.Chain' BlockLink st.blocks := (chainOk_iff _).mp hc
            have hstne : st.blocks ≠ [] := by
              intro h
              rw [h] at hlast
              cases hlast
            obtain ⟨f0, hf0⟩ : ∃ f0, st.blocks.head? = some f0 := by
              cases hb : st.blocks with
              | nil => exact absurd hb hstne
              | cons a t => exact ⟨a, rfl⟩
            have hLL := chain_length_eq st.blocks f0 current hcst hf0 hlast
            have hr1 : f2.number ≤ current.number + 1 :=
              le_trans hrle (min_le_left _ _)
            have hst2 : st'.blocks =
                ((st.blocks.take
                    (st.blocks.length - (current.number + 1 - f2.number))
                  ++ (f2 :: addedT)).drop
                  ((st.blocks.take
                      (st.blocks.length - (current.number + 1 - f2.number))
                    ++ (f2 :: addedT)).length - s.history_size)) := by
              rw [← hst]
              rfl
            have hchB1 : List.Chain' BlockLink
                (st.blocks.take (st.blocks.length - (current.number + 1 - f2.number))
                  ++ (f2 :: addedT)) := by
              by_cases htp :
                  st.blocks.take (st.blocks.length - (current.number + 1 - f2.number)) = []
              · rw [htp]
                simpa using hchadd
              · refine List.chain'_append.mpr ⟨hcst.take _, hchadd, ?_⟩
                intro x hx y hy
                simp only [List.head?_cons, Option.mem_def, Option.some.injEq] at hy
                subst hy
                have h8 := List.length_pos.mpr htp
                rw [List.length_take] at h8
                have ht1 : 0 < st.blocks.length - (current.number + 1 - f2.number) := by
                  omega
                have ht2 : 0 < st.blocks.length := by omega
                have hrgt : f0.number < f2.number := by omega
                rcases hstop with h0 | hnone | ⟨pb, hpb, hpbh⟩
                · omega
                · obtain ⟨pbx, hpbx⟩ :=
                    block_with_number_exists st.blocks f0 (f2.number - 1) hf0
                      (by omega) (by omega)
                  rw [hnone] at hpbx
                  cases hpbx
                · have hpbn : pb.number = f2.number - 1 :=
                    block_with_number_some_number st.blocks (f2.number - 1) hcst pb hpb
                  have htake_last := getLast?_take (l := st.blocks)
                    (n := st.blocks.length - (current.number + 1 - f2.number))
                    (by omega) (by omega)
                  rw [Option.mem_def, htake_last] at hx
                  have hbwneq := block_with_number_eq st.blocks f0 (f2.number - 1) hf0
                    (by omega)
                  rw [hbwneq] at hpb
                  have hidx : st.blocks.length - (current.number + 1 - f2.number) - 1
                      = f2.number - 1 - f0.number := by omega
                  rw [hidx, hpb] at hx
                  cases hx
                  exact ⟨by omega, hpbh.symm⟩
            rw [hst2]
            have h10 : (st.blocks.take
                  (st.blocks.length - (current.number + 1 - f2.number))
                ++ (f2 :: addedT)).length =
                (st.blocks.take
                  (st.blocks.length - (current.number + 1 - f2.number))).length
                  + (addedT.length + 1) := by
              rw [List.length_append]
              simp
            refine ⟨?_, ?_, (chainOk_iff _).mpr (List.Chain'.drop hchB1 _)⟩
            · intro hnil2
              have h9 := congrArg List.length hnil2
              simp only [List.length_drop, List.length_nil] at h9
              omega
            · simp only [List.length_drop]
              omega

/-- C3: a successful `reset_and_init` on head `n` rebuilds the buffer as
exactly the blocks numbered `max(0, n - history_size + 1) .. n`, resets
`sync_error_count` to 0, and emits an update with `reorg_depth = 0`, the
buffered blocks' flattened ops and balance updates as the mined lists, empty
unmined lists, `reorg_larger_than_history = false`, and
`earliest_remembered_block_number` equal to the front block's number. -/
theorem claim_C3 (p : Provider) (s : Settings) (st : ChainState)
    (head : BlockSummary) (hp : GoodProvider p) (hH : 1 ≤ s.history_size) :
    ∀ u st', reset_and_init p s st head = (.ok u, st') →
      st'.blocks.map (·.number) =
        List.range' (head.number - (s.history_size - 1))
          (head.number + 1 - (head.number - (s.history_size - 1))) ∧
      st'.sync_error_count = 0 ∧
      u.reorg_depth = 0 ∧
      u.mined_ops = st'.blocks.flatMap (·.ops) ∧
      u.entity_balance_updates = st'.blocks.flatMap (·.entity_balance_updates) ∧
      u.unmined_ops = [] ∧
      u.unmined_entity_balance_updates = [] ∧
      u.reorg_larger_than_history = false ∧
      (∀ f, st'.blocks.head? = some f →
        u.earliest_remembered_block_number = f.number) ∧
      (∀ g, st'.blocks.getLast? = some g →
        g.number = head.number ∧ g.hash = head.hash) := by
  intro u st' hok
  obtain ⟨hsec, hmap, hch, hne, hlen, ⟨g, hg, hgm⟩, hu⟩ :=
    reset_ok p s st head u st' hp hH hok
  subst hu
  refine ⟨hmap, hsec, rfl, rfl, rfl, rfl, rfl, rfl, ?_, ?_⟩
  · intro f hf
    show (st'.blocks.headD emptyBlockSummary).number = f.number
    rw [List.headD_eq_head?_getD, hf]
    rfl
  · intro g2 hg2
    rw [hg] at hg2
    cases hg2
    exact ⟨metaOf_number hgm, metaOf_hash hgm⟩

/-- C4: the classification performed by `sync_to_block`: an empty buffer
resets; a stale head (`cur > new + H`) increments the error counter and either
forces a reset (counter at 50) or fails; a skip-ahead head (`cur + H < new`)
resets; anything else runs the advance-and-maybe-reorg path. -/
theorem claim_C4 (p : Provider) (s : Settings) (st : ChainState) (nh : Block) :
    (st.blocks = [] →
      sync_to_block p s st nh = reset_and_init p s st (summaryOfBlock nh))
  ∧ (∀ current, st.blocks.getLast? = some current →
      (nh.number + s.history_size < current.number →
        ((SYNC_ERROR_COUNT_MAX ≤ st.sync_error_count + 1 →
          sync_to_block p s st nh = reset_and_init p s
            { st with sync_error_count := st.sync_error_count + 1 }
            (summaryOfBlock nh))
        ∧ (st.sync_error_count + 1 < SYNC_ERROR_COUNT_MAX →
          sync_to_block p s st nh =
            (.error "new block number should be greater than start of history",
             { st with sync_error_count := st.sync_error_count + 1 }))))
      ∧ (¬ nh.number + s.history_size < current.number →
         current.number + s.history_size < nh.number →
         sync_to_block p s st nh = reset_and_init p s st (summaryOfBlock nh))
      ∧ (¬ nh.number + s.history_size < current.number →
         ¬ current.number + s.history_size < nh.number →
         sync_to_block p s st nh =
           match load_added_blocks_connecting_to_existing_chain p s st
               current.number (summaryOfBlock nh) with
           | .error e => (.error e, st)
           | .ok added =>
             (.ok (update_with_blocks s st current.number added).1,
              (update_with_blocks s st current.number added).2))) := by
  constructor
  · intro hemp
    simp only [sync_to_block, hemp, List.getLast?_nil]
  · intro current hlast
    refine ⟨?_, ?_, ?_⟩
    · intro hstale
      constructor
      · intro hmax
        simp only [sync_to_block, summaryOfBlock, hlast]
        rw [if_pos hstale, if_pos hmax]
      · intro hlt
        simp only [sync_to_block, summaryOfBlock, hlast]
        rw [if_pos hstale, if_neg (by omega)]
    · intro hnst hskip
      simp only [sync_to_block, summaryOfBlock, hlast]
      rw [if_neg hnst, if_pos hskip]
    · intro hnst hnskip
      simp only [sync_to_block, summaryOfBlock, hlast]
      rw [if_neg hnst, if_neg hnskip]

theorem reset_err (p : Provider) (s : Settings) (st : ChainState)
    (head : BlockSummary) :
    ∀ e st', reset_and_init p s st head = (.error e, st') → st' = st := by
  intro e st' h
  rw [reset_and_init] at h
  split at h
  · simp only [Prod.mk.injEq] at h
    exact h.2.symm
  · split at h
    · simp only [Prod.mk.injEq] at h
      exact h.2.symm
    · simp only [Prod.mk.injEq] at h
      exact absurd h.1 (by simp)

/-- C6: a failed `sync_to_block` leaves the history buffer untouched; only the
stale-head counter may have changed, and then exactly by an increment. -/
theorem claim_C6 (p : Provider) (s : Settings) (st : ChainState) (nh : Block) :
    ∀ e st', sync_to_block p s st nh = (.error e, st') →
      st'.blocks = st.blocks ∧
      (st'.sync_error_count = st.sync_error_count ∨
       st'.sync_error_count = st.sync_error_count + 1) := by
  intro e st' hok
  simp only [sync_to_block] at hok
  split at hok
  · have := reset_err p s st _ e st' hok
    subst this
    exact ⟨rfl, Or.inl rfl⟩
  · rename_i current hlast
    split at hok
    · split at hok
      · have := reset_err p s _ _ e st' hok
        subst this
        exact ⟨rfl, Or.inr rfl⟩
      · simp only [Prod.mk.injEq] at hok
        rw [← hok.2]
        exact ⟨rfl, Or.inr rfl⟩
    · split at hok
      · have := reset_err p s st _ e st' hok
        subst this
        exact ⟨rfl, Or.inl rfl⟩
      · split at hok
        · simp only [Prod.mk.injEq] at hok
          rw [← hok.2]
          exact ⟨rfl, Or.inl rfl⟩
        · simp only [Prod.mk.injEq] at hok
          exact absurd hok.1 (by simp)

/-- C7: `deduped_ops` keeps exactly the mined ops whose hash is not among the
unmined ops' hashes and vice versa (in original order); the two results have
disjoint hash sets and are sublists of the original lists; the update itself
is not modified (the function is read-only). -/
theorem claim_C7 (u : ChainUpdate) :
    (deduped_ops u).mined_ops =
      u.mined_ops.filter (fun op => !((u.unmined_ops.map (·.hash)).contains op.hash))
  ∧ (deduped_ops u).unmined_ops =
      u.unmined_ops.filter (fun op => !((u.mined_ops.map (·.hash)).contains op.hash))
  ∧ (∀ a, a ∈ (deduped_ops u).mined_ops → ∀ b, b ∈ (deduped_ops u).unmined_ops →
      a.hash ≠ b.hash)
  ∧ (∀ a, a ∈ (deduped_ops u).mined_ops → a ∈ u.mined_ops)
  ∧ (∀ b, b ∈ (deduped_ops u).unmined_ops → b ∈ u.unmined_ops) := by
  refine ⟨rfl, rfl, ?_, ?_, ?_⟩
  · intro a ha b hb hab
    simp only [deduped_ops, List.mem_filter, Bool.not_eq_true'] at ha hb
    have hmem : a.hash ∈ u.unmined_ops.map (·.hash) :=
      hab ▸ List.mem_map_of_mem (·.hash) hb.1
    have : (u.unmined_ops.map (·.hash)).contains a.hash = true :=
      List.contains_iff_exists_mem_beq.mpr ⟨a.hash, hmem, by simp⟩
    rw [ha.2] at this
    cases this
  · intro a ha
    simp only [deduped_ops, List.mem_filter] at ha
    exact ha.1
  · intro b hb
    simp only [deduped_ops, List.mem_filter] at hb
    exact hb.1

/-- C8: `block_with_number` returns absent on an empty buffer or a number
below the front; otherwise it indexes the buffer at `n - front.number`
(absent past the back); under the chain invariant a returned block has number
exactly `n`. -/
theorem claim_C8 (blocks : List BlockSummary) (n : Nat) :
    (blocks = [] → block_with_number blocks n = none)
  ∧ (∀ front, blocks.head? = some front →
      (n < front.number → block_with_number blocks n = none)
      ∧ (front.number ≤ n →
          block_with_number blocks n = blocks[n - front.number]?))
  ∧ (chainOk blocks = true →
      ∀ b, block_with_number blocks n = some b → b.number = n) := by
  refine ⟨?_, ?_, ?_⟩
  · intro h
    rw [h]
    rfl
  · intro front hf
    exact ⟨fun hn => block_with_number_lt blocks front n hf hn,
           fun hn => block_with_number_eq blocks front n hf hn⟩
  · intro hc b hb
    exact block_with_number_some_number blocks n ((chainOk_iff _).mp hc) b hb

/-- C9: a configured, successfully decoding log yields exactly the record the
spec describes: a `UserOperationEvent` gives a `MinedOp` with the emitting
address as entry point and `paymaster = none` exactly when the decoded
paymaster is zero; `Deposited` / `Withdrawn` give balance updates with
`is_addition` true / false, the event's account and amount. -/
theorem claim_C9 (log : Log) (mined : List MinedOp) (bal : List BalanceUpdate) :
    (∀ ev, log.topic0 = some SIG_USER_OPERATION_EVENT_V0_6 →
      log.decodeUserOpV06 = some ev →
      load_v0_6 log mined bal =
        (mined ++ [{ hash := ev.userOpHash, entry_point := log.address,
                     sender := ev.sender, nonce := ev.nonce,
                     actual_gas_cost := ev.actualGasCost,
                     paymaster := if ev.paymaster = 0 then none
                                  else some ev.paymaster }], bal))
  ∧ (∀ ev, log.topic0 = some SIG_DEPOSITED_V0_6 →
      log.decodeDepositedV06 = some ev →
      load_v0_6 log mined bal =
        (mined, bal ++ [{ address := ev.account, entrypoint := log.address,
                          amount := ev.totalDeposit, is_addition := true }]))
  ∧ (∀ ev, log.topic0 = some SIG_WITHDRAWN_V0_6 →
      log.decodeWithdrawnV06 = some ev →
      load_v0_6 log mined bal =
        (mined, bal ++ [{ address := ev.account, entrypoint := log.address,
                          amount := ev.amount, is_addition := false }]))
  ∧ (∀ ev, log.topic0 = some SIG_USER_OPERATION_EVENT_V0_7 →
      log.decodeUserOpV07 = some ev →
      load_v0_7 log mined bal =
        (mined ++ [{ hash := ev.userOpHash, entry_point := log.address,
                     sender := ev.sender, nonce := ev.nonce,
                     actual_gas_cost := ev.actualGasCost,
                     paymaster := if ev.paymaster = 0 then none
                                  else some ev.paymaster }], bal))
  ∧ (∀ ev, log.topic0 = some SIG_DEPOSITED_V0_7 →
      log.decodeDepositedV07 = some ev →
      load_v0_7 log mined bal =
        (mined, bal ++ [{ address := ev.account, entrypoint := log.address,
                          amount := ev.totalDeposit, is_addition := true }]))
  ∧ (∀ ev, log.topic0 = some SIG_WITHDRAWN_V0_7 →
      log.decodeWithdrawnV07 = some ev →
      load_v0_7 log mined bal =
        (mined, bal ++ [{ address := ev.account, entrypoint := log.address,
                          amount := ev.amount, is_addition := false }])) := by
  refine ⟨?_, ?_, ?_, ?_, ?_, ?_⟩ <;> intro ev h1 h2 <;>
    simp [load_v0_6, load_v0_7, h1, h2, SIG_USER_OPERATION_EVENT_V0_6,
      SIG_DEPOSITED_V0_6, SIG_WITHDRAWN_V0_6, SIG_USER_OPERATION_EVENT_V0_7,
      SIG_DEPOSITED_V0_7, SIG_WITHDRAWN_V0_7]

theorem load_v0_6_skip (s : Settings) (l : Log)
    (hv : lookupVersion s l.address = some EntryPointVersion.v0_6)
    (hs : logSkipped s l = true) (a : List MinedOp) (b : List BalanceUpdate) :
    load_v0_6 l a b = (a, b) := by
  simp only [logSkipped, hv] at hs
  cases ht : l.topic0 with
  | none => simp [load_v0_6, ht]
  | some t =>
    simp only [ht] at hs
    simp only [load_v0_6, ht]
    by_cases h1 : t = SIG_USER_OPERATION_EVENT_V0_6
    · rw [if_pos h1] at hs
      rw [if_pos h1]
      cases hd : l.decodeUserOpV06 with
      | none => rfl
      | some ev => rw [hd] at hs; simp at hs
    · rw [if_neg h1] at hs
      rw [if_neg h1]
      by_cases h2 : t = SIG_DEPOSITED_V0_6
      · rw [if_pos h2] at hs
        rw [if_pos h2]
        cases hd : l.decodeDepositedV06 with
        | none => rfl
        | some ev => rw [hd] at hs; simp at hs
      · rw [if_neg h2] at hs
        rw [if_neg h2]
        by_cases h3 : t = SIG_WITHDRAWN_V0_6
        · rw [if_pos h3] at hs
          rw [if_pos h3]
          cases hd : l.decodeWithdrawnV06 with
          | none => rfl
          | some ev => rw [hd] at hs; simp at hs
        · rw [if_neg h3]

theorem load_v0_7_skip (s : Settings) (l : Log)
    (hv : lookupVersion s l.address = some EntryPointVersion.v0_7)
    (hs : logSkipped s l = true) (a : List MinedOp) (b : List BalanceUpdate) :
    load_v0_7 l a b = (a, b) := by
  simp only [logSkipped, hv] at hs
  cases ht : l.topic0 with
  | none => simp [load_v0_7, ht]
  | some t =>
    simp only [ht] at hs
    simp only [load_v0_7, ht]
    by_cases h1 : t = SIG_USER_OPERATION_EVENT_V0_7
    · rw [if_pos h1] at hs
      rw [if_pos h1]
      cases hd : l.decodeUserOpV07 with
      | none => rfl
      | some ev => rw [hd] at hs; simp at hs
    · rw [if_neg h1] at hs
      rw [if_neg h1]
      by_cases h2 : t = SIG_DEPOSITED_V0_7
      · rw [if_pos h2] at hs
        rw [if_pos h2]
        cases hd : l.decodeDepositedV07 with
        | none => rfl
        | some ev => rw [hd] at hs; simp at hs
      · rw [if_neg h2] at hs
        rw [if_neg h2]
        by_cases h3 : t = SIG_WITHDRAWN_V0_7
        · rw [if_pos h3] at hs
          rw [if_pos h3]
          cases hd : l.decodeWithdrawnV07 with
          | none => rfl
          | some ev => rw [hd] at hs; simp at hs
        · rw [if_neg h3]

/-- C10: a batch of logs never fails on a skippable log: `load_ops_in_block`
succeeds whenever `get_logs` does, and a log with an unconfigured address,
unrecognized topic, or undecodable payload contributes nothing — the decoded
result is that of the remaining logs in log order. -/
theorem claim_C10 (p : Provider) (s : Settings) (h : Nat) :
    (∀ logs, p.getLogs h = some logs →
      load_ops_in_block_with_hash p s h = .ok (decodeLogs s logs))
  ∧ (∀ pre l post, logSkipped s l = true →
      decodeLogs s (pre ++ l :: post) = decodeLogs s (pre ++ post)) := by
  constructor
  · intro logs hlogs
    rw [load_ops_in_block_with_hash, hlogs]
  · intro pre l post hs
    simp only [decodeLogs, List.foldl_append, List.foldl_cons]
    congr 1
    cases hv : lookupVersion s l.address with
    | none => rfl
    | some v =>
      cases v with
      | v0_6 =>
        show load_v0_6 l _ _ = _
        rw [load_v0_6_skip s l hv hs]
      | v0_7 =>
        show load_v0_7 l _ _ = _
        rw [load_v0_7_skip s l hv hs]
      | unspecified => rfl

/-- C2 (refuted at a corner): with buffer 5..7 (`history_size = 3`, block 7
holding one op) and a new head at number 4 = back - history_size (not caught by
the stale-head fence), the sync succeeds with `reorg_depth = 4` but emits
`unmined_ops = []`, not the flattened ops of the last `reorg_depth` blocks of
the pre-update buffer, which contain the op of block 7: the wrapping
`blocks.len() - reorg_depth` skip drops the whole unmined computation (a debug
build panics on the same subtraction). -/
theorem claim_C2_counterexample :
    sync_to_block cexProvider cexSettings cexState cexHead =
      (.ok cexUpdate, cexStateAfter)
    ∧ cexUpdate.unmined_ops = []
    ∧ (cexState.blocks.drop
        (cexState.blocks.length - cexUpdate.reorg_depth)).flatMap (·.ops) =
      [cexOp] := by
  refine ⟨?_, rfl, rfl⟩
  rfl

/-- C5 (refuted): at the same reachable input the walk stops at block number
4, giving `reorg_depth = 4` strictly greater than the pre-sync buffer length
3 — the claimed bound `reorg_depth ≤ buffer length` fails and the `usize`
subtraction `blocks.len() - reorg_depth` in `update_with_blocks` underflows
(panic in a debug build, wrap-around in release). -/
theorem claim_C5_counterexample :
    sync_to_block cexProvider cexSettings cexState cexHead =
      (.ok cexUpdate, cexStateAfter)
    ∧ cexUpdate.reorg_depth = 4
    ∧ cexState.blocks.length = 3
    ∧ ¬ cexUpdate.reorg_depth ≤ cexState.blocks.length := by
  refine ⟨?_, rfl, rfl, by decide⟩
  rfl

theorem claim_C1_witness :
    GoodProvider cexProvider ∧ 1 ≤ cexSettings.history_size ∧
    chainOk emptyState.blocks = true ∧
    (w1After.blocks ≠ [] ∧ w1After.blocks.length ≤ cexSettings.history_size ∧
     chainOk w1After.blocks = true) :=
  ⟨fun _ b hb => Option.noConfusion hb, by decide, rfl,
   claim_C1 cexProvider cexSettings emptyState w1Head
     (fun _ b hb => Option.noConfusion hb) (by decide) rfl w1Update w1After rfl⟩

theorem claim_C3_witness :
    GoodProvider cexProvider ∧ 1 ≤ w3Settings.history_size ∧
    (w3After.blocks.map (·.number) =
        List.range' (w3Head.number - (w3Settings.history_size - 1))
          (w3Head.number + 1 - (w3Head.number - (w3Settings.history_size - 1))) ∧
     w3After.sync_error_count = 0 ∧
     w3Update.reorg_depth = 0 ∧
     w3Update.mined_ops = w3After.blocks.flatMap (·.ops) ∧
     w3Update.entity_balance_updates =
       w3After.blocks.flatMap (·.entity_balance_updates) ∧
     w3Update.unmined_ops = [] ∧
     w3Update.unmined_entity_balance_updates = [] ∧
     w3Update.reorg_larger_than_history = false ∧
     (∀ f, w3After.blocks.head? = some f →
        w3Update.earliest_remembered_block_number = f.number) ∧
     (∀ g, w3After.blocks.getLast? = some g →
        g.number = w3Head.number ∧ g.hash = w3Head.hash)) :=
  ⟨fun _ b hb => Option.noConfusion hb, by decide,
   claim_C3 cexProvider w3Settings emptyState w3Head
     (fun _ b hb => Option.noConfusion hb) (by decide) w3Update w3After rfl⟩

theorem claim_C4_witness :
    (sync_to_block cexProvider cexSettings emptyState w1Head =
        reset_and_init cexProvider cexSettings emptyState
          (summaryOfBlock w1Head))
  ∧ (sync_to_block cexProvider cexSettings w4State w4Head =
      (.error "new block number should be greater than start of history",
       { w4State with sync_error_count := w4State.sync_error_count + 1 })) :=
  ⟨(claim_C4 cexProvider cexSettings emptyState w1Head).1 rfl,
   (((claim_C4 cexProvider cexSettings w4State w4Head).2
      ⟨100, 200, 0, 199, [], []⟩ rfl).1 (by decide)).2 (by decide)⟩

theorem claim_C6_witness :
    (⟨w4State.blocks, 11⟩ : ChainState).blocks = w4State.blocks ∧
    ((⟨w4State.blocks, 11⟩ : ChainState).sync_error_count =
        w4State.sync_error_count ∨
     (⟨w4State.blocks, 11⟩ : ChainState).sync_error_count =
        w4State.sync_error_count + 1) :=
  claim_C6 cexProvider cexSettings w4State w4Head
    "new block number should be greater than start of history"
    ⟨w4State.blocks, 11⟩ rfl

theorem claim_C7_witness :
    (deduped_ops w7Update).mined_ops = [w7OpA] ∧
    (deduped_ops w7Update).unmined_ops = [w7OpC] ∧
    w7OpA ∈ w7Update.mined_ops ∧ w7OpC ∈ w7Update.unmined_ops ∧
    w7OpA.hash ≠ w7OpC.hash :=
  ⟨by decide, by decide,
   (claim_C7 w7Update).2.2.2.1 w7OpA (by decide),
   (claim_C7 w7Update).2.2.2.2 w7OpC (by decide),
   (claim_C7 w7Update).2.2.1 w7OpA (by decide) w7OpC (by decide)⟩

theorem claim_C8_witness :
    block_with_number cexState.blocks 6 = cexState.blocks[6 - cexB5.number]? ∧
    (∀ b, block_with_number cexState.blocks 6 = some b → b.number = 6) :=
  ⟨((claim_C8 cexState.blocks 6).2.1 cexB5 rfl).2 (by decide),
   (claim_C8 cexState.blocks 6).2.2 rfl⟩

theorem claim_C9_witness :
    load_v0_6 w9Log [] [] =
      ([{ hash := w9Event.userOpHash, entry_point := w9Log.address,
          sender := w9Event.sender, nonce := w9Event.nonce,
          actual_gas_cost := w9Event.actualGasCost,
          paymaster := if w9Event.paymaster = 0 then none
                       else some w9Event.paymaster }], []) :=
  (claim_C9 w9Log [] []).1 w9Event rfl rfl

theorem claim_C10_witness :
    load_ops_in_block_with_hash w10Provider w9Settings 0 =
      .ok (decodeLogs w9Settings [w10Log]) ∧
    decodeLogs w9Settings ([] ++ w10Log :: []) = decodeLogs w9Settings ([] ++ []) :=
  ⟨(claim_C10 w10Provider w9Settings 0).1 [w10Log] rfl,
   (claim_C10 w10Provider w9Settings 0).2 [] w10Log [] rfl⟩
